import Mathlib

/-!
Verification of the `den` single-user passkey login service (Rust) against its
natural-language specification.

The development shallowly embeds the security-relevant pure logic of the
source:

* `src/origin.rs` — origin/host normalization (`normalize_origin`,
  `origin_host`, `normalize_host`, `request_origin`, `request_host`,
  `request_fallback_scheme`);
* `src/api/auth.rs` — redirect-path normalization, ceremony redemption
  (the atomic `DELETE ... RETURNING` in `register_complete` /
  `login_complete`), the single-user bootstrap insert, passkey deletion,
  handoff-token verification in `redirect_complete`, and the
  `login_begin` redirect-context computation;
* `src/middleware.rs` — the canonical-origin enforcement middleware.

External collaborators are abstracted exactly where the source delegates to
them: WHATWG URL parsing (the `url` crate) is a parameter
`parse : String → Option Url` producing the parser outputs the source reads
(`scheme()`, `username()`, `password()`, `host_str()`, `port()`), and JWT
decoding (the `jsonwebtoken` crate) is represented by its result, an
`Option` of the claims (present exactly when signature and expiry
validation succeeded).  SQLite tables are lists of rows; each SQL statement
used by the source is translated as one atomic function on the table, so
statement-level atomicity of the store is the atomicity of one Lean
function application.
-/

namespace Den

/-- Unicode white-space test used by Rust `str::trim`; the source only ever
trims origin/path strings, for which the ASCII White_Space code points are
the relevant ones. -/
def isRustWhitespace (c : Char) : Bool :=
  c == ' ' || c == '\t' || c == '\n' || c == '\r' ||
    c == Char.ofNat 11 || c == Char.ofNat 12

/-- Rust `str::trim`: remove leading and trailing white-space. -/
def strTrim (s : String) : String :=
  String.mk (((s.data.dropWhile isRustWhitespace).reverse.dropWhile
      isRustWhitespace).reverse)

/-- Rust `str::starts_with`. -/
def strStartsWith (s p : String) : Bool :=
  p.data.isPrefixOf s.data

/-- Rust `str::contains(char)`. -/
def strContains (s : String) (c : Char) : Bool :=
  s.data.contains c

/-- Rust `str::contains(&str)` (used for `"://"` detection). -/
def listIsInfix (needle hay : List Char) : Bool :=
  match hay with
  | [] => needle.isEmpty
  | _ :: t => needle.isPrefixOf hay || listIsInfix needle t

/-- Rust `str::contains(&str)` on strings. -/
def strContainsSub (s sub : String) : Bool :=
  listIsInfix sub.data s.data

/-- Rust `u8::to_ascii_lowercase` on a character. -/
def lowerAscii (c : Char) : Char :=
  if 'A' ≤ c && c ≤ 'Z' then Char.ofNat (c.toNat + 32) else c

/-- Rust `str::to_ascii_lowercase`. -/
def strToLower (s : String) : String :=
  String.mk (s.data.map lowerAscii)

/-- Rust `str::eq_ignore_ascii_case`. -/
def eqIgnoreAsciiCase (s t : String) : Bool :=
  strToLower s == strToLower t

/-- Rust `str::strip_prefix`. -/
def stripPfx (s p : String) : Option String :=
  if p.data.isPrefixOf s.data then some (String.mk (s.data.drop p.data.length))
  else none

-- --- The `url` crate, abstracted (external dependency) ---

/-- Outputs of the WHATWG URL parser (`url::Url`) that the source reads:
`scheme()`, `username()`, `password()`, `host_str()`, `port()`.  The parser
itself is external to the repository, so it is a parameter of every function
that calls `Url::parse`. -/
structure Url where
  scheme : String
  username : String
  password : Option String
  host : Option String
  port : Option Nat
  deriving Repr, DecidableEq

/-- Source `url::Url::origin().ascii_serialization()` for a URL with a host:
`scheme://host[:port]`, with no path, query or fragment. -/
def Url.originAscii (u : Url) : String :=
  u.scheme ++ "://" ++ (u.host.getD "") ++
    (match u.port with
     | some p => ":" ++ toString p
     | none => "")

/-- An abstract URL parser standing for `url::Url::parse` (`none` = parse
error). -/
def UrlParser : Type := String → Option Url

-- --- src/origin.rs ---

/-- Source `origin.rs::normalize_origin` (lines 29–39): parse, require scheme
`http`/`https`, require a host, reject embedded credentials, return the
ASCII origin serialization. -/
def normalize_origin (parse : UrlParser) (origin : String) : Option String :=
  match parse origin with
  | none => none
  | some parsed =>
    if !(parsed.scheme == "http" || parsed.scheme == "https") then none
    else
      match parsed.host with
      | none => none
      | some _ =>
        if !(parsed.username == "") || parsed.password.isSome then none
        else some parsed.originAscii

/-- Source `origin.rs::host_with_port` (lines 41–47). -/
def host_with_port (u : Url) : Option String :=
  match u.host with
  | none => none
  | some h =>
    let host := strToLower h
    some (match u.port with
          | some p => host ++ ":" ++ toString p
          | none => host)

/-- Source `origin.rs::origin_host` (lines 49–53). -/
def origin_host (parse : UrlParser) (origin : String) : Option String :=
  match normalize_origin parse origin with
  | none => none
  | some o =>
    match parse o with
    | none => none
    | some parsed => host_with_port parsed

/-- Source `origin.rs::normalize_host` (lines 55–69). -/
def normalize_host (parse : UrlParser) (candidate : String) : Option String :=
  let candidate := strTrim candidate
  if candidate == "" then none
  else if strContainsSub candidate "://" then origin_host parse candidate
  else if strContains candidate '/' || strContains candidate '?' ||
      strContains candidate '#' then none
  else
    match parse ("http://" ++ candidate) with
    | none => none
    | some parsed => host_with_port parsed

-- --- Request headers (the three headers the source reads) ---

/-- The request headers consulted by `src/origin.rs`; `none` models an
absent (or non-UTF-8, hence unusable) header. -/
structure Headers where
  xForwardedProto : Option String
  xForwardedHost : Option String
  host : Option String
  deriving Repr, DecidableEq

/-- Source `origin.rs::header_value_first` (lines 17–27): first comma-separated
entry, trimmed, dropped if empty. -/
def header_value_first (v : Option String) : Option String :=
  match v with
  | none => none
  | some v =>
    let first := strTrim (String.mk (v.data.takeWhile (fun c => !(c == ','))))
    if first == "" then none else some first

/-- Source `origin.rs::request_host` (lines 11–15). -/
def request_host (h : Headers) : Option String :=
  match header_value_first h.xForwardedHost with
  | some v => some v
  | none => header_value_first h.host

/-- Source `origin.rs::request_origin` (lines 6–9). -/
def request_origin (h : Headers) (fallbackScheme : String) : Option String :=
  let proto := (header_value_first h.xForwardedProto).getD fallbackScheme
  (request_host h).map (fun host => proto ++ "://" ++ host)

/-- Source `origin.rs::request_fallback_scheme` (lines 71–88). -/
def request_fallback_scheme (parse : UrlParser) (h : Headers)
    (rpOrigin : String) : String :=
  let rpFallback := if strStartsWith rpOrigin "https://" then "https" else "http"
  match origin_host parse rpOrigin with
  | none => rpFallback
  | some rpHost =>
    match (request_host h).bind (normalize_host parse) with
    | none => rpFallback
    | some requestHost =>
      if eqIgnoreAsciiCase requestHost rpHost then rpFallback else "http"

-- --- Process state (src/state.rs::AppState, the fields the claims use) ---

/-- Source `state.rs::AppState`: canonical origin, allow-list (the `HashSet` is a
list queried only through `contains`), and the secure-cookie default. -/
structure AppState where
  rpOrigin : String
  allowedHosts : List String
  secureCookies : Bool
  deriving Repr, DecidableEq

-- --- src/api/auth.rs: pure helpers ---

/-- Source `api/auth.rs::normalize_redirect_path` (lines 156–165). -/
def normalize_redirect_path (path : Option String) : String :=
  match path with
  | none => "/"
  | some p =>
    let path := strTrim p
    if strStartsWith path "/" && !(strStartsWith path "//") &&
        !(strContains path '\\') then path
    else "/"

/-- Source `api/auth.rs::normalize_redirect_origin` (lines 126–142).  Result
`Except status (Option origin)`: `.error 400` for a bad or disallowed
origin, `.ok none` when the parameter is absent or names the canonical
origin itself, `.ok (some o)` for an accepted cross-origin target. -/
def normalize_redirect_origin (parse : UrlParser) (st : AppState)
    (origin : Option String) : Except Nat (Option String) :=
  match origin with
  | none => .ok none
  | some origin =>
    match normalize_origin parse origin with
    | none => .error 400
    | some normalized =>
      if eqIgnoreAsciiCase normalized st.rpOrigin then .ok none
      else
        match origin_host parse normalized with
        | none => .error 400
        | some host =>
          if !(st.allowedHosts.contains host) then .error 400
          else .ok (some normalized)

/-- Source `api/auth.rs::redirect_complete_url` (lines 167–174); the
form-url-encoding of the token (a base64url JWT) is the identity here. -/
def redirect_complete_url (targetOrigin token : String) : String :=
  targetOrigin ++ "/api/auth/redirect/complete?token=" ++ token

/-- The redirect-context computation of `api/auth.rs::login_begin`
(lines 381–384): validate the requested origin, and derive a redirect path
only when a cross-origin target was accepted. -/
def login_begin_redirect_context (parse : UrlParser) (st : AppState)
    (reqOrigin reqPath : Option String) :
    Except Nat (Option String × Option String) :=
  match normalize_redirect_origin parse st reqOrigin with
  | .error e => .error e
  | .ok redirectOrigin =>
    .ok (redirectOrigin,
         redirectOrigin.map (fun _ => normalize_redirect_path reqPath))

/-- The `redirect_url` computation of `api/auth.rs::login_complete`
(lines 508–519), given the ceremony context's stored redirect target and
the minted handoff token. -/
def login_complete_redirect_url (ctxOrigin _ctxPath : Option String)
    (token : String) : Option String :=
  ctxOrigin.map (fun targetOrigin => redirect_complete_url targetOrigin token)

-- --- Ceremony store (table auth_challenge; src/api/auth.rs) ---

/-- One row of the `auth_challenge` table.  `expiresAt` is the row's
absolute expiry instant; SQLite's `datetime` comparisons are modelled on
integer timestamps. -/
structure ChallengeRow where
  id : String
  state : String
  kind : String
  expiresAt : Int
  deriving Repr, DecidableEq

/-- The `WHERE` predicate of the redeem statement of
`register_complete`/`login_complete`:
`id = ? AND kind = ? AND expires_at > datetime('now')`. -/
def redeemMatchP (cid kind : String) (now : Int) (r : ChallengeRow) : Bool :=
  r.id == cid && r.kind == kind && decide (now < r.expiresAt)

/-- The single atomic statement
`DELETE FROM auth_challenge WHERE id = ? AND kind = ? AND expires_at >
datetime('now') RETURNING state` of `api/auth.rs::register_complete`
(lines 306–313, kind `'registration'`) and `login_complete` (lines
449–456, kind `'authentication'`): the returned context (if any row
matched) together with the table after the delete, produced by one
function application. -/
def redeem (db : List ChallengeRow) (cid kind : String) (now : Int) :
    Option String × List ChallengeRow :=
  ((db.find? (redeemMatchP cid kind now)).map ChallengeRow.state,
   db.filter (fun r => !redeemMatchP cid kind now r))

/-- The redeem step as the handler observes it (lines 306–315 / 449–458):
a missing row maps to status 400 (`BAD_REQUEST`). -/
def redeemStep (db : List ChallengeRow) (cid kind : String) (now : Int) :
    Except Nat (String × List ChallengeRow) :=
  match redeem db cid kind now with
  | (some state, db') => .ok (state, db')
  | (none, _) => .error 400

/-- The periodic cleanup
`DELETE FROM auth_challenge WHERE expires_at < datetime('now')` run by
`register_begin` (lines 207–211) and `login_begin` (lines 386–390). -/
def sweep_expired (db : List ChallengeRow) (now : Int) : List ChallengeRow :=
  db.filter (fun r => !decide (r.expiresAt < now))

-- --- Single-user bootstrap guard (table user; src/api/auth.rs) ---

/-- One row of the `user` table. -/
structure UserRow where
  id : String
  name : String
  deriving Repr, DecidableEq

/-- The single conditional insert
`INSERT INTO user (id, name) SELECT ?, ? WHERE NOT EXISTS (SELECT 1 FROM
user)` of `api/auth.rs::register_complete` (lines 334–341): returns
`rows_affected` and the table after the statement. -/
def create_user_if_absent (users : List UserRow) (id name : String) :
    Nat × List UserRow :=
  if users.isEmpty then (1, users ++ [⟨id, name⟩]) else (0, users)

/-- The user-creation step of `api/auth.rs::register_complete`
(lines 332–345): for a first-ever-setup ceremony, run the conditional
insert and fail with 409 (`CONFLICT`) when it affected zero rows. -/
def register_complete_user_step (users : List UserRow) (isNewUser : Bool)
    (id name : String) : Except Nat (List UserRow) :=
  if isNewUser then
    let r := create_user_if_absent users id name
    if r.1 == 0 then .error 409 else .ok r.2
  else .ok users

-- --- Passkey deletion (table passkey; src/api/auth.rs) ---

/-- One row of the `passkey` table (the columns `delete_passkey` touches). -/
structure PasskeyRow where
  id : Int
  userId : String
  deriving Repr, DecidableEq

/-- Source `COUNT(*) FROM passkey WHERE user_id = ?`. -/
def user_passkey_count (db : List PasskeyRow) (uid : String) : Nat :=
  (db.filter (fun r => r.userId == uid)).length

/-- The guarded delete
`DELETE FROM passkey WHERE id = ? AND user_id = ? AND (SELECT COUNT(*)
FROM passkey WHERE user_id = ?) > 1` of `api/auth.rs::delete_passkey`
(lines 644–653): one atomic statement returning `rows_affected` and the
table afterwards.  The correlated subquery counts rows of the table the
statement runs against. -/
def deletePasskeyRows (db : List PasskeyRow) (id : Int) (uid : String) :
    Nat × List PasskeyRow :=
  if user_passkey_count db uid > 1 then
    let remaining := db.filter (fun r => !(r.id == id && r.userId == uid))
    (db.length - remaining.length, remaining)
  else (0, db)

/-- Source `api/auth.rs::delete_passkey` (lines 639–673): status code (204, 400
or 404) and the table after the request. -/
def delete_passkey (db : List PasskeyRow) (authUid : String) (id : Int) :
    Nat × List PasskeyRow :=
  let r := deletePasskeyRows db id authUid
  if r.1 == 0 then
    if db.any (fun row => row.id == id && row.userId == authUid) then (400, db)
    else (404, db)
  else (204, r.2)

-- --- Handoff-token verification (src/api/auth.rs::redirect_complete) ---

/-- Source `api/auth.rs::LoginRedirectClaims` (lines 80–88). -/
structure LoginRedirectClaims where
  iss : String
  aud : String
  sub : String
  path : String
  iat : Int
  exp : Int
  deriving Repr, DecidableEq

/-- Source `api/auth.rs::redirect_complete` (lines 545–583).  `decoded` is the
result of the external `jsonwebtoken::decode` with `validate_aud = false`:
`some claims` exactly when the token's signature is valid and it is
unexpired, `none` otherwise.  On success the handler mints a session
cookie for `claims.sub` on the resolving origin and redirects to the
normalized claim path; the model returns that pair. -/
def redirect_complete (parse : UrlParser) (st : AppState)
    (decoded : Option LoginRedirectClaims) (headers : Headers) :
    Except Nat (String × String) :=
  match decoded with
  | none => .error 401
  | some claims =>
    if !(eqIgnoreAsciiCase claims.iss st.rpOrigin) then .error 401
    else
      let fallbackScheme := request_fallback_scheme parse headers st.rpOrigin
      match request_origin headers fallbackScheme with
      | none => .error 400
      | some origin =>
        if !(eqIgnoreAsciiCase claims.aud origin) then .error 401
        else
          match origin_host parse claims.aud with
          | none => .error 401
          | some audHost =>
            if !(st.allowedHosts.contains audHost) then .error 401
            else .ok (claims.sub, normalize_redirect_path (some claims.path))

-- --- src/middleware.rs ---

/-- Source `middleware.rs::path_matches` (lines 11–16). -/
def path_matches (path route : String) : Bool :=
  path == route ||
    (match stripPfx path route with
     | some rest => strStartsWith rest "/"
     | none => false)

/-- Source `middleware.rs::canonical_auth_path` (lines 18–20). -/
def canonical_auth_path (path : String) : Bool :=
  path_matches path "/login" || path_matches path "/setup"

/-- Outcome of the middleware: pass the request through, or answer with a
temporary redirect.  The redirect's query string is modelled as the list
of pairs the `form_urlencoded::Serializer` received, in order
(abstracting percent-encoding). -/
inductive MiddlewareResult where
  | passThrough
  | redirect (location : String) (query : List (String × String))
  deriving Repr, DecidableEq

/-- The query-rebuilding loop of
`middleware.rs::enforce_canonical_auth_origin` (lines 41–60), folded over
the parsed query pairs with the serializer contents and the two flags as
state. -/
def middlewareQueryFold (isLogin : Bool) (pairs : List (String × String))
    (acc : List (String × String)) (hasRO hasRP : Bool) :
    List (String × String) × Bool × Bool :=
  match pairs with
  | [] => (acc, hasRO, hasRP)
  | kv :: rest =>
    if kv.1 == "redirect_origin" then
      middlewareQueryFold isLogin rest acc (hasRO || isLogin) hasRP
    else if kv.1 == "redirect_path" then
      if !isLogin then middlewareQueryFold isLogin rest acc hasRO hasRP
      else middlewareQueryFold isLogin rest (acc ++ [kv]) hasRO true
    else middlewareQueryFold isLogin rest (acc ++ [kv]) hasRO hasRP

/-- Source `middleware.rs::enforce_canonical_auth_origin` (lines 22–82). -/
def enforce_canonical_auth_origin (parse : UrlParser) (st : AppState)
    (path : String) (queryPairs : List (String × String)) (headers : Headers) :
    MiddlewareResult :=
  let isLogin := path_matches path "/login"
  if !canonical_auth_path path then .passThrough
  else
    let fallbackScheme := request_fallback_scheme parse headers st.rpOrigin
    match request_origin headers fallbackScheme with
    | none => .passThrough
    | some origin =>
      if eqIgnoreAsciiCase origin st.rpOrigin then .passThrough
      else
        let f := middlewareQueryFold isLogin queryPairs [] false false
        let inject := isLogin &&
          (match origin_host parse origin with
           | some h => st.allowedHosts.contains h
           | none => false)
        let acc := if inject then f.1 ++ [("redirect_origin", origin)] else f.1
        let hasRO := f.2.1 || inject
        let acc := if isLogin && hasRO && !f.2.2 then
            acc ++ [("redirect_path", "/")]
          else acc
        .redirect (st.rpOrigin ++ path) acc

-- --- Concrete URL-parser table used by the closed witness statements ---

/-- A concrete instance of the abstract WHATWG parser, defined on the few
origin strings the witness statements evaluate. -/
def parseStub : UrlParser := fun s =>
  if s == "https://app.example" then
    some ⟨"https", "", none, some "app.example", none⟩
  else if s == "http://app.example" then
    some ⟨"http", "", none, some "app.example", none⟩
  else if s == "https://canon.example" then
    some ⟨"https", "", none, some "canon.example", none⟩
  else if s == "http://canon.example" then
    some ⟨"http", "", none, some "canon.example", none⟩
  else if s == "http://other.example" then
    some ⟨"http", "", none, some "other.example", none⟩
  else none

-- --- Claims ---

/-- C5: `normalize_redirect_path` trims white-space, returns the trimmed
path exactly when it starts with a single `/` (not `//`) and contains no
backslash, and returns `"/"` for every other input, including an absent
one; in particular `//evil.com` and `/\evil.com` collapse to `/` while
`/dashboard` is kept. -/
theorem normalize_redirect_path_spec :
    (normalize_redirect_path none = "/")
    ∧ (∀ p : String,
        (strStartsWith (strTrim p) "/" = true ∧
            strStartsWith (strTrim p) "//" = false ∧
            strContains (strTrim p) '\\' = false →
          normalize_redirect_path (some p) = strTrim p)
        ∧ (strStartsWith (strTrim p) "/" = false ∨
            strStartsWith (strTrim p) "//" = true ∨
            strContains (strTrim p) '\\' = true →
          normalize_redirect_path (some p) = "/"))
    ∧ normalize_redirect_path (some "//evil.com") = "/"
    ∧ normalize_redirect_path (some "/\\evil.com") = "/"
    ∧ normalize_redirect_path (some "/dashboard") = "/dashboard" := by
  refine ⟨rfl, ?_, by decide, by decide, by decide⟩
  intro p
  constructor
  · rintro ⟨h1, h2, h3⟩
    simp [normalize_redirect_path, h1, h2, h3]
  · intro h
    rcases h with h | h | h <;> simp [normalize_redirect_path, h]

/-- Closed instance of the C5 theorem at the input `"  /dashboard "`. -/
theorem normalize_redirect_path_spec_witness :
    normalize_redirect_path (some "  /dashboard ") = strTrim "  /dashboard " :=
  (normalize_redirect_path_spec.2.1 "  /dashboard ").1 (by decide)

/-- C7: `normalize_origin` returns `none` whenever URL parsing fails, the
scheme is not exactly `http`/`https`, the URL carries embedded credentials,
or no host is present; otherwise it returns the ASCII origin serialization
`scheme://host[:port]`, which contains no path, query, or fragment. -/
theorem normalize_origin_spec (parse : UrlParser) (origin : String) :
    (parse origin = none → normalize_origin parse origin = none)
    ∧ (∀ u, parse origin = some u →
        ((¬(u.scheme = "http" ∨ u.scheme = "https") ∨ u.username ≠ "" ∨
            u.password.isSome = true ∨ u.host = none) →
          normalize_origin parse origin = none)
        ∧ (∀ hst, u.host = some hst →
            (u.scheme = "http" ∨ u.scheme = "https") →
            u.username = "" → u.password = none →
            normalize_origin parse origin =
              some (u.scheme ++ "://" ++ hst ++
                (match u.port with
                 | some p => ":" ++ toString p
                 | none => "")))) := by
  constructor
  · intro h
    simp [normalize_origin, h]
  · intro u hu
    constructor
    · intro h
      rcases h with h | h | h | h
      · have hs1 : (u.scheme == "http") = false :=
          beq_eq_false_iff_ne.mpr (fun hc => h (Or.inl hc))
        have hs2 : (u.scheme == "https") = false :=
          beq_eq_false_iff_ne.mpr (fun hc => h (Or.inr hc))
        simp [normalize_origin, hu, hs1, hs2]
      · have hne : (u.username == "") = false :=
          beq_eq_false_iff_ne.mpr h
        cases hh : u.host with
        | none => simp [normalize_origin, hu, hh]
        | some v => simp [normalize_origin, hu, hh, hne]
      · cases hh : u.host with
        | none => simp [normalize_origin, hu, hh]
        | some v => simp [normalize_origin, hu, hh, h]
      · simp [normalize_origin, hu, h]
    · intro hst hhost hscheme huser hpass
      have hsch : (u.scheme == "http" || u.scheme == "https") = true := by
        rcases hscheme with h | h <;> simp [h]
      simp [normalize_origin, hu, hhost, hsch, huser, hpass, Url.originAscii]

/-- Closed instance of the C7 theorem at the parseable origin
`https://app.example`. -/
theorem normalize_origin_spec_witness :
    normalize_origin parseStub "https://app.example" = some "https://app.example" := by
  have h := ((normalize_origin_spec parseStub "https://app.example").2
      ⟨"https", "", none, some "app.example", none⟩ (by decide)).2
      "app.example" rfl (Or.inr rfl) rfl rfl
  exact h.trans (by decide)

/-- C4: the single-user bootstrap guard is one conditional insert: on an
empty user table it inserts the row (one row affected); on a non-empty
table it affects zero rows, changes nothing, and `register_complete` turns
that into 409 Conflict — so of two completions racing to create the first
user, the first (in the storage engine's serialization) succeeds, the
second conflicts, and exactly one user row ever exists. -/
theorem bootstrap_guard_spec :
    (∀ (id name : String),
      create_user_if_absent [] id name = (1, [⟨id, name⟩]))
    ∧ (∀ (users : List UserRow) (id name : String), users ≠ [] →
        create_user_if_absent users id name = (0, users)
        ∧ register_complete_user_step users true id name = .error 409)
    ∧ (∀ (id₁ name₁ id₂ name₂ : String),
        (create_user_if_absent [] id₁ name₁).1 = 1
        ∧ create_user_if_absent (create_user_if_absent [] id₁ name₁).2 id₂ name₂
            = (0, [⟨id₁, name₁⟩])
        ∧ register_complete_user_step (create_user_if_absent [] id₁ name₁).2
            true id₂ name₂ = .error 409
        ∧ ((create_user_if_absent [] id₁ name₁).2).length = 1) := by
  have hne : ∀ (users : List UserRow) (id name : String), users ≠ [] →
      create_user_if_absent users id name = (0, users)
      ∧ register_complete_user_step users true id name = .error 409 := by
    intro users id name h
    have hempty : users.isEmpty = false := by
      cases users with
      | nil => exact absurd rfl h
      | cons a t => rfl
    constructor
    · simp [create_user_if_absent, hempty]
    · simp [register_complete_user_step, create_user_if_absent, hempty]
  refine ⟨fun id name => by simp [create_user_if_absent], hne, ?_⟩
  intro id₁ name₁ id₂ name₂
  have h1 : create_user_if_absent [] id₁ name₁ = (1, [⟨id₁, name₁⟩]) := by
    simp [create_user_if_absent]
  have h2 := hne [⟨id₁, name₁⟩] id₂ name₂ (by simp)
  refine ⟨by simp [h1], ?_, ?_, by simp [h1]⟩
  · rw [h1]; exact h2.1
  · rw [h1]; exact h2.2

/-- Closed instance of the C4 theorem: a second completion against the
one-user table conflicts and leaves the table unchanged. -/
theorem bootstrap_guard_spec_witness :
    create_user_if_absent [⟨"u1", "alice"⟩] "u2" "bob" = (0, [⟨"u1", "alice"⟩])
    ∧ register_complete_user_step [⟨"u1", "alice"⟩] true "u2" "bob"
        = .error 409 :=
  bootstrap_guard_spec.2.1 [⟨"u1", "alice"⟩] "u2" "bob" (by decide)

/-- Helper: `find?` is unaffected by a `filter` that keeps every element
the search predicate accepts. -/
theorem find?_filter_of_imp {α : Type} (p q : α → Bool) :
    ∀ l : List α, (∀ x, p x = true → q x = true) →
      (l.filter q).find? p = l.find? p := by
  intro l h
  induction l with
  | nil => rfl
  | cons a t ih =>
    cases hq : q a with
    | true =>
      rw [List.filter_cons_of_pos hq]
      cases hp : p a with
      | true => rw [List.find?_cons_of_pos _ hp, List.find?_cons_of_pos _ hp]
      | false =>
        rw [List.find?_cons_of_neg _ (by simp [hp]),
          List.find?_cons_of_neg _ (by simp [hp]), ih]
    | false =>
      have hp : p a = false := by
        cases hpa : p a with
        | false => rfl
        | true => rw [h a hpa] at hq; cases hq
      rw [List.filter_cons_of_neg (by simp [hq]),
        List.find?_cons_of_neg _ (by simp [hp]), ih]

/-- C1: ceremony redemption succeeds at most once.  The redeem statement of
`register_complete`/`login_complete` is one atomic delete-and-return
matching id, kind and unexpired expiry, and challenge ids are unique
(`auth_challenge.id` is the table key), so once a redemption of an id has
succeeded, every further redemption attempt with that id — by either
endpoint, at any later or earlier clock reading, within the TTL window or
not — finds no row and the handler answers 400. -/
theorem redeem_at_most_once (db : List ChallengeRow) (cid kind : String)
    (now : Int) (st : String) (db' : List ChallengeRow)
    (hnodup : (db.map ChallengeRow.id).Nodup)
    (h : redeem db cid kind now = (some st, db')) :
    ∀ (kind' : String) (now' : Int),
      (redeem db' cid kind' now').1 = none
      ∧ redeemStep db' cid kind' now' = .error 400 := by
  intro kind' now'
  have hfst : (db.find? (redeemMatchP cid kind now)).map ChallengeRow.state
      = some st := by
    have := congrArg Prod.fst h
    simpa [redeem] using this
  have hsnd : db.filter (fun r => !redeemMatchP cid kind now r) = db' := by
    have := congrArg Prod.snd h
    simpa [redeem] using this
  obtain ⟨r, hr_find, _⟩ := Option.map_eq_some'.mp hfst
  have hr_mem : r ∈ db := List.mem_of_find?_eq_some hr_find
  have hr_p : redeemMatchP cid kind now r = true := List.find?_some hr_find
  have hr_id : r.id = cid := by
    have h2 := hr_p
    simp [redeemMatchP] at h2
    exact h2.1.1
  have hnone : ∀ r' ∈ db', redeemMatchP cid kind' now' r' = false := by
    intro r' hr'
    rw [← hsnd] at hr'
    have hmem := List.mem_filter.mp hr'
    have hr'_db : r' ∈ db := hmem.1
    have hr'_np : redeemMatchP cid kind now r' = false := by
      have h3 := hmem.2
      simpa using h3
    cases hp : redeemMatchP cid kind' now' r' with
    | false => rfl
    | true =>
      have hr'_id : r'.id = cid := by
        simp [redeemMatchP] at hp
        exact hp.1.1
      have hrr : r' = r :=
        List.inj_on_of_nodup_map hnodup hr'_db hr_mem (by rw [hr'_id, hr_id])
      rw [hrr, hr_p] at hr'_np
      cases hr'_np
  have hfind' : db'.find? (redeemMatchP cid kind' now') = none :=
    List.find?_eq_none.mpr (fun x hx => by simp [hnone x hx])
  exact ⟨by simp [redeem, hfind'], by simp [redeemStep, redeem, hfind']⟩

/-- Closed instance of the C1 theorem: after the one successful redemption
of challenge `c1`, a further attempt (here by the other endpoint, well
within the TTL) returns no row and the client observes 400. -/
theorem redeem_at_most_once_witness :
    (redeem [] "c1" "authentication" 10).1 = none
    ∧ redeemStep [] "c1" "authentication" 10 = .error 400 :=
  redeem_at_most_once [⟨"c1", "ctx", "registration", 100⟩] "c1" "registration"
    50 "ctx" [] (by decide) (by decide) "authentication" 10

/-- C3: a ceremony row whose expiry has passed is never redeemable — the
`expires_at > now` predicate sits inside the atomic delete itself — and the
value a redemption returns is the same whether or not the periodic
expired-row sweep (run at any earlier instant) happened first. -/
theorem redeem_expired_spec (db : List ChallengeRow) (cid kind : String)
    (now : Int) :
    ((∀ r ∈ db, r.id = cid → r.expiresAt ≤ now) →
      (redeem db cid kind now).1 = none
      ∧ redeemStep db cid kind now = .error 400)
    ∧ (∀ now₀ : Int, now₀ ≤ now →
        (redeem (sweep_expired db now₀) cid kind now).1
          = (redeem db cid kind now).1) := by
  constructor
  · intro h
    have hfind : db.find? (redeemMatchP cid kind now) = none := by
      refine List.find?_eq_none.mpr ?_
      intro x hx hpx
      have hx1 : (x.id = cid ∧ x.kind = kind) ∧ now < x.expiresAt := by
        simpa [redeemMatchP] using hpx
      have := h x hx hx1.1.1
      omega
    exact ⟨by simp [redeem, hfind], by simp [redeemStep, redeem, hfind]⟩
  · intro now₀ hle
    have heq : (db.filter (fun r => !decide (r.expiresAt < now₀))).find?
        (redeemMatchP cid kind now) = db.find? (redeemMatchP cid kind now) := by
      refine find?_filter_of_imp _ _ db ?_
      intro x hx
      have h1 : now < x.expiresAt := by
        simp [redeemMatchP] at hx
        exact hx.2
      simp
      omega
    show ((db.filter _).find? _).map _ = ((db.find? _).map _)
    rw [heq]

/-- Closed instance of the C3 theorem: an expired row is not redeemable,
with or without a prior sweep. -/
theorem redeem_expired_spec_witness :
    ((redeem [⟨"c2", "ctx", "authentication", 5⟩] "c2" "authentication" 10).1
        = none
      ∧ redeemStep [⟨"c2", "ctx", "authentication", 5⟩] "c2" "authentication" 10
        = .error 400)
    ∧ (redeem (sweep_expired [⟨"c2", "ctx", "authentication", 5⟩] 7) "c2"
          "authentication" 10).1
        = (redeem [⟨"c2", "ctx", "authentication", 5⟩] "c2" "authentication" 10).1 :=
  ⟨(redeem_expired_spec [⟨"c2", "ctx", "authentication", 5⟩] "c2"
      "authentication" 10).1 (by decide),
   (redeem_expired_spec [⟨"c2", "ctx", "authentication", 5⟩] "c2"
      "authentication" 10).2 7 (by decide)⟩

/-- Helper: the two halves of a `filter` partition a list's length. -/
theorem length_filter_add_length_filter_not {α : Type} (p : α → Bool)
    (l : List α) :
    (l.filter p).length + (l.filter (fun x => !p x)).length = l.length := by
  induction l with
  | nil => rfl
  | cons a t ih =>
    cases h : p a <;> simp [List.filter_cons, h] <;> omega

/-- Helper: with pairwise-distinct row ids, filtering the `passkey` table
for a present row's id and owner yields exactly that row. -/
theorem passkey_filter_target (id : Int) (uid : String) :
    ∀ (db : List PasskeyRow), (db.map PasskeyRow.id).Nodup →
      ∀ r ∈ db, r.id = id → r.userId = uid →
        db.filter (fun x => x.id == id && x.userId == uid) = [r] := by
  intro db
  induction db with
  | nil => intro _ r hr; cases hr
  | cons a t ih =>
    intro hnd r hr hid huid
    rw [List.map_cons, List.nodup_cons] at hnd
    obtain ⟨hna, hnt⟩ := hnd
    rcases List.mem_cons.mp hr with rfl | hrt
    · have hpa : (r.id == id && r.userId == uid) = true := by simp [hid, huid]
      have hnil : t.filter (fun x => x.id == id && x.userId == uid) = [] := by
        rw [List.filter_eq_nil_iff]
        intro x hx hpx
        simp at hpx
        exact hna (List.mem_map.mpr ⟨x, hx, by rw [hpx.1, hid]⟩)
      simp only [List.filter_cons]
      rw [if_pos hpa, hnil]
    · have haid : a.id ≠ id := by
        intro hcontra
        exact hna (List.mem_map.mpr ⟨r, hrt, by rw [hid, hcontra]⟩)
      have hpa : (a.id == id && a.userId == uid) = false := by
        simp [haid]
      simp only [List.filter_cons]
      rw [if_neg (by simp [hpa])]
      exact ih hnt r hrt hid huid

/-- Helper: deleting one owned row (under pairwise-distinct ids) lowers the
owner's credential count by exactly one. -/
theorem count_after_delete (id : Int) (uid : String) :
    ∀ (db : List PasskeyRow), (db.map PasskeyRow.id).Nodup →
      ∀ r ∈ db, r.id = id → r.userId = uid →
        user_passkey_count
            (db.filter (fun x => !(x.id == id && x.userId == uid))) uid
          = user_passkey_count db uid - 1 := by
  intro db
  induction db with
  | nil => intro _ r hr; cases hr
  | cons a t ih =>
    intro hnd r hr hid huid
    rw [List.map_cons, List.nodup_cons] at hnd
    obtain ⟨hna, hnt⟩ := hnd
    rcases List.mem_cons.mp hr with rfl | hrt
    · have hpa : (r.id == id && r.userId == uid) = true := by simp [hid, huid]
      have hrest : t.filter (fun x => !(x.id == id && x.userId == uid)) = t := by
        rw [List.filter_eq_self]
        intro x hx
        cases hpx : (x.id == id && x.userId == uid) with
        | false => rfl
        | true =>
          simp at hpx
          exact absurd (List.mem_map.mpr ⟨x, hx, by rw [hpx.1, hid]⟩) hna
      have hstep : (r :: t).filter (fun x => !(x.id == id && x.userId == uid))
          = t.filter (fun x => !(x.id == id && x.userId == uid)) := by
        simp only [List.filter_cons]
        rw [if_neg (by simp [hpa])]
      rw [hstep, hrest]
      have hcons : user_passkey_count (r :: t) uid
          = user_passkey_count t uid + 1 := by
        simp [user_passkey_count, List.filter_cons, huid]
      rw [hcons]
      omega
    · have haid : a.id ≠ id := by
        intro hcontra
        exact hna (List.mem_map.mpr ⟨r, hrt, by rw [hid, hcontra]⟩)
      have hpa : (a.id == id && a.userId == uid) = false := by simp [haid]
      have hpos : 1 ≤ user_passkey_count t uid := by
        have hmem : r ∈ t.filter (fun x => x.userId == uid) :=
          List.mem_filter.mpr ⟨hrt, by simp [huid]⟩
        exact List.length_pos_of_mem hmem
      have iht := ih hnt r hrt hid huid
      have hstep : (a :: t).filter (fun x => !(x.id == id && x.userId == uid))
          = a :: t.filter (fun x => !(x.id == id && x.userId == uid)) := by
        simp only [List.filter_cons]
        rw [if_pos (by simp [hpa])]
      rw [hstep]
      have hone : ∀ (l : List PasskeyRow),
          user_passkey_count (a :: l) uid
            = user_passkey_count l uid + (if a.userId == uid then 1 else 0) := by
        intro l
        cases h : (a.userId == uid) <;>
          simp [user_passkey_count, List.filter_cons, h]
      rw [hone, hone, iht]
      cases h : (a.userId == uid)
      · simp [h]
      · simp [h]
        omega

/-- C6: a delete can never leave the user with zero credentials.  Deleting
the sole remaining credential answers 400 and leaves the table unchanged;
deleting one of two or more owned credentials answers 204 and removes
exactly the addressed row, lowering the owner's count by one (so exactly
one remains when starting from two); and in general a user owning at least
one credential still owns at least one after any delete request. -/
theorem delete_passkey_spec (db : List PasskeyRow) (uid : String) (id : Int)
    (hnodup : (db.map PasskeyRow.id).Nodup) :
    (∀ r ∈ db, r.id = id → r.userId = uid → user_passkey_count db uid = 1 →
        delete_passkey db uid id = (400, db))
    ∧ (∀ r ∈ db, r.id = id → r.userId = uid → 2 ≤ user_passkey_count db uid →
        (delete_passkey db uid id).1 = 204
        ∧ r ∉ (delete_passkey db uid id).2
        ∧ (∀ x ∈ db, x ≠ r → x ∈ (delete_passkey db uid id).2)
        ∧ user_passkey_count (delete_passkey db uid id).2 uid
            = user_passkey_count db uid - 1)
    ∧ (1 ≤ user_passkey_count db uid →
        1 ≤ user_passkey_count (delete_passkey db uid id).2 uid) := by
  have main2 : ∀ r ∈ db, r.id = id → r.userId = uid →
      2 ≤ user_passkey_count db uid →
      delete_passkey db uid id
        = (204, db.filter (fun x => !(x.id == id && x.userId == uid))) := by
    intro r hr hid huid hcount
    have hflt := passkey_filter_target id uid db hnodup r hr hid huid
    have hlen := length_filter_add_length_filter_not
      (fun x => x.id == id && x.userId == uid) db
    rw [hflt] at hlen
    simp only [List.length_singleton] at hlen
    have hgt : user_passkey_count db uid > 1 := by omega
    have haff : db.length -
        (db.filter (fun x => !(x.id == id && x.userId == uid))).length = 1 := by
      omega
    have hrows : deletePasskeyRows db id uid
        = (1, db.filter (fun x => !(x.id == id && x.userId == uid))) := by
      unfold deletePasskeyRows
      rw [if_pos hgt]
      show (db.length -
          (db.filter (fun x => !(x.id == id && x.userId == uid))).length,
        db.filter (fun x => !(x.id == id && x.userId == uid))) = _
      rw [haff]
    unfold delete_passkey
    rw [hrows]
    rfl
  refine ⟨?_, ?_, ?_⟩
  · intro r hr hid huid hcount
    have hngt : ¬ user_passkey_count db uid > 1 := by omega
    have hrows : deletePasskeyRows db id uid = (0, db) := by
      simp [deletePasskeyRows, hngt]
    have hany : db.any (fun row => row.id == id && row.userId == uid) = true :=
      List.any_eq_true.mpr ⟨r, hr, by simp [hid, huid]⟩
    unfold delete_passkey
    rw [hrows, hany]
    rfl
  · intro r hr hid huid hcount
    have h2 := main2 r hr hid huid hcount
    rw [h2]
    refine ⟨rfl, ?_, ?_, ?_⟩
    · intro hmem
      have := (List.mem_filter.mp hmem).2
      simp [hid, huid] at this
    · intro x hx hne
      refine List.mem_filter.mpr ⟨hx, ?_⟩
      cases hpx : (x.id == id && x.userId == uid) with
      | false => simp
      | true =>
        simp at hpx
        have : x = r :=
          List.inj_on_of_nodup_map hnodup hx hr (by rw [hpx.1, hid])
        exact absurd this hne
    · exact count_after_delete id uid db hnodup r hr hid huid
  · intro hc1
    by_cases hgt : user_passkey_count db uid > 1
    · by_cases hex : ∃ r ∈ db, r.id = id ∧ r.userId = uid
      · obtain ⟨r, hr, hid, huid⟩ := hex
        have h2 := main2 r hr hid huid (by omega)
        rw [h2]
        have hcd := count_after_delete id uid db hnodup r hr hid huid
        simp only [hcd]
        omega
      · have hrem : db.filter (fun x => !(x.id == id && x.userId == uid)) = db := by
          rw [List.filter_eq_self]
          intro x hx
          cases hpx : (x.id == id && x.userId == uid) with
          | false => simp
          | true =>
            simp at hpx
            exact absurd ⟨x, hx, hpx.1, hpx.2⟩ hex
        have hrows : deletePasskeyRows db id uid = (0, db) := by
          unfold deletePasskeyRows
          rw [if_pos hgt]
          show (db.length -
              (db.filter (fun x => !(x.id == id && x.userId == uid))).length,
            db.filter (fun x => !(x.id == id && x.userId == uid))) = _
          rw [hrem]
          simp
        have hany : db.any (fun row => row.id == id && row.userId == uid)
            = false := by
          cases h : db.any (fun row => row.id == id && row.userId == uid) with
          | false => rfl
          | true =>
            obtain ⟨x, hx, hpx⟩ := List.any_eq_true.mp h
            simp at hpx
            exact absurd ⟨x, hx, hpx.1, hpx.2⟩ hex
        have hdel : delete_passkey db uid id = (404, db) := by
          unfold delete_passkey
          rw [hrows, hany]
          rfl
        rw [hdel]
        exact hc1
    · have hrows : deletePasskeyRows db id uid = (0, db) := by
        unfold deletePasskeyRows
        rw [if_neg hgt]
      cases hany : db.any (fun row => row.id == id && row.userId == uid) with
      | true =>
        have hdel : delete_passkey db uid id = (400, db) := by
          unfold delete_passkey
          rw [hrows, hany]
          rfl
        rw [hdel]
        exact hc1
      | false =>
        have hdel : delete_passkey db uid id = (404, db) := by
          unfold delete_passkey
          rw [hrows, hany]
          rfl
        rw [hdel]
        exact hc1

/-- Closed instance of the C6 theorem: with two credentials, deleting one
answers 204 and exactly one remains; the remaining user count is one. -/
theorem delete_passkey_spec_witness :
    (delete_passkey [⟨1, "u"⟩, ⟨2, "u"⟩] "u" 1).1 = 204
    ∧ user_passkey_count (delete_passkey [⟨1, "u"⟩, ⟨2, "u"⟩] "u" 1).2 "u"
        = user_passkey_count [⟨1, "u"⟩, ⟨2, "u"⟩] "u" - 1 :=
  ⟨((delete_passkey_spec [⟨1, "u"⟩, ⟨2, "u"⟩] "u" 1 (by decide)).2.1 ⟨1, "u"⟩
      (by decide) rfl rfl (by decide)).1,
   ((delete_passkey_spec [⟨1, "u"⟩, ⟨2, "u"⟩] "u" 1 (by decide)).2.1 ⟨1, "u"⟩
      (by decide) rfl rfl (by decide)).2.2.2⟩

/-- C8: whenever the inbound request's host resolves and normalizes, the
fallback scheme is the canonical origin's own scheme if that host equals
the canonical origin's host case-insensitively, and plain `http` for any
other host.  (`if strStartsWith rpOrigin "https://" …` is exactly the
canonical origin's scheme for a normalized `http`/`https` origin
string.) -/
theorem request_fallback_scheme_spec (parse : UrlParser) (h : Headers)
    (rpOrigin rpHost reqHost : String)
    (h1 : origin_host parse rpOrigin = some rpHost)
    (h2 : (request_host h).bind (normalize_host parse) = some reqHost) :
    request_fallback_scheme parse h rpOrigin =
      if eqIgnoreAsciiCase reqHost rpHost then
        (if strStartsWith rpOrigin "https://" then "https" else "http")
      else "http" := by
  simp only [request_fallback_scheme, h1, h2]

/-- Closed instance of the C8 theorem: same host (canonical scheme kept)
and different host (downgraded to `http`). -/
theorem request_fallback_scheme_spec_witness :
    request_fallback_scheme parseStub ⟨none, none, some "app.example"⟩
        "https://app.example" = "https"
    ∧ request_fallback_scheme parseStub ⟨none, none, some "other.example"⟩
        "https://app.example" = "http" :=
  ⟨(request_fallback_scheme_spec parseStub ⟨none, none, some "app.example"⟩
      "https://app.example" "app.example" "app.example" (by decide)
      (by decide)).trans (by decide),
   (request_fallback_scheme_spec parseStub ⟨none, none, some "other.example"⟩
      "https://app.example" "app.example" "other.example" (by decide)
      (by decide)).trans (by decide)⟩

/-- C2: `redirect_complete` succeeds — mints a session for the token's
subject on the resolving origin and redirects to the normalized claim path
— only if the external decode succeeded (valid signature, unexpired), the
issuer case-insensitively equals the canonical origin, the audience
case-insensitively equals the origin resolved for this request, and the
audience's host is allow-listed; a decode failure is 401; an audience
differing from the resolving request's origin is 401 even when everything
else passes; an audience host missing from the allow-list is 401 even when
everything else passes. -/
theorem redirect_complete_spec (parse : UrlParser) (st : AppState)
    (decoded : Option LoginRedirectClaims) (headers : Headers) :
    (∀ sub rpath,
      redirect_complete parse st decoded headers = .ok (sub, rpath) →
      ∃ c, decoded = some c
        ∧ eqIgnoreAsciiCase c.iss st.rpOrigin = true
        ∧ (∃ origin, request_origin headers
              (request_fallback_scheme parse headers st.rpOrigin) = some origin
            ∧ eqIgnoreAsciiCase c.aud origin = true)
        ∧ (∃ audHost, origin_host parse c.aud = some audHost
            ∧ audHost ∈ st.allowedHosts)
        ∧ sub = c.sub ∧ rpath = normalize_redirect_path (some c.path))
    ∧ (redirect_complete parse st none headers = .error 401)
    ∧ (∀ c origin, decoded = some c →
        request_origin headers (request_fallback_scheme parse headers st.rpOrigin)
          = some origin →
        eqIgnoreAsciiCase c.aud origin = false →
        redirect_complete parse st decoded headers = .error 401)
    ∧ (∀ c audHost, decoded = some c →
        (∃ origin, request_origin headers
            (request_fallback_scheme parse headers st.rpOrigin) = some origin) →
        origin_host parse c.aud = some audHost →
        audHost ∉ st.allowedHosts →
        redirect_complete parse st decoded headers = .error 401) := by
  refine ⟨?_, by simp [redirect_complete], ?_, ?_⟩
  · intro sub rpath h
    cases decoded with
    | none => simp [redirect_complete] at h
    | some c =>
      refine ⟨c, rfl, ?_⟩
      cases hiss : eqIgnoreAsciiCase c.iss st.rpOrigin with
      | false => simp [redirect_complete, hiss] at h
      | true =>
        cases horg : request_origin headers
            (request_fallback_scheme parse headers st.rpOrigin) with
        | none => simp [redirect_complete, hiss, horg] at h
        | some origin =>
          cases haud : eqIgnoreAsciiCase c.aud origin with
          | false => simp [redirect_complete, hiss, horg, haud] at h
          | true =>
            cases hoh : origin_host parse c.aud with
            | none => simp [redirect_complete, hiss, horg, haud, hoh] at h
            | some ah =>
              cases hmem : st.allowedHosts.contains ah with
              | false =>
                have hm2 : ah ∉ st.allowedHosts := by simpa using hmem
                simp [redirect_complete, hiss, horg, haud, hoh, hm2] at h
              | true =>
                have hm2 : ah ∈ st.allowedHosts := by simpa using hmem
                simp [redirect_complete, hiss, horg, haud, hoh, hm2] at h
                exact ⟨rfl, ⟨origin, rfl, haud⟩, ⟨ah, rfl, hm2⟩,
                  h.1.symm, h.2.symm⟩
  · intro c origin hdec horg haud
    subst hdec
    cases hiss : eqIgnoreAsciiCase c.iss st.rpOrigin with
    | false => simp [redirect_complete, hiss]
    | true => simp [redirect_complete, hiss, horg, haud]
  · intro c ah hdec hex hoh hmem
    obtain ⟨origin, horg⟩ := hex
    subst hdec
    cases hiss : eqIgnoreAsciiCase c.iss st.rpOrigin with
    | false => simp [redirect_complete, hiss]
    | true =>
      cases haud : eqIgnoreAsciiCase c.aud origin with
      | false => simp [redirect_complete, hiss, horg, haud]
      | true => simp [redirect_complete, hiss, horg, haud, hoh, hmem]

/-- Closed instance of the C2 theorem: a validly-signed claim set whose
audience differs from the resolving request's origin is rejected with
401. -/
theorem redirect_complete_spec_witness :
    redirect_complete parseStub ⟨"https://canon.example", ["other.example"], true⟩
        (some ⟨"https://canon.example", "https://app.example", "u1", "/", 0, 60⟩)
        ⟨none, none, some "other.example"⟩
      = .error 401 :=
  (redirect_complete_spec parseStub
      ⟨"https://canon.example", ["other.example"], true⟩
      (some ⟨"https://canon.example", "https://app.example", "u1", "/", 0, 60⟩)
      ⟨none, none, some "other.example"⟩).2.2.1
    ⟨"https://canon.example", "https://app.example", "u1", "/", 0, 60⟩
    "http://other.example" rfl (by decide) (by decide)

/-- C10: a `login_begin` handoff request whose `redirect_origin`
normalizes to the canonical origin itself is silently treated as absent:
no redirect target (nor path) is stored in the ceremony context, and
`login_complete` for such a context produces no `redirect_url`. -/
theorem login_canonical_target_silently_absent (parse : UrlParser)
    (st : AppState) (reqOrigin : String) (reqPath : Option String) (n : String)
    (h1 : normalize_origin parse reqOrigin = some n)
    (h2 : eqIgnoreAsciiCase n st.rpOrigin = true) :
    normalize_redirect_origin parse st (some reqOrigin) = .ok none
    ∧ login_begin_redirect_context parse st (some reqOrigin) reqPath
        = .ok (none, none)
    ∧ (∀ token, login_complete_redirect_url none none token = none) := by
  have hnro : normalize_redirect_origin parse st (some reqOrigin) = .ok none := by
    simp [normalize_redirect_origin, h1, h2]
  exact ⟨hnro, by simp [login_begin_redirect_context, hnro], fun _ => rfl⟩

/-- Closed instance of the C10 theorem at a `redirect_origin` naming the
canonical origin (up to ASCII case). -/
theorem login_canonical_target_witness :
    login_begin_redirect_context parseStub ⟨"http://canon.example", [], false⟩
        (some "http://canon.example") (some "/after") = .ok (none, none) :=
  (login_canonical_target_silently_absent parseStub
    ⟨"http://canon.example", [], false⟩ "http://canon.example" (some "/after")
    "http://canon.example" (by decide) (by decide)).2.1

/-- Helper: closed form of the middleware's query-rebuilding loop. -/
theorem middlewareQueryFold_spec (isLogin : Bool) :
    ∀ (pairs acc : List (String × String)) (hasRO hasRP : Bool),
      middlewareQueryFold isLogin pairs acc hasRO hasRP =
        (acc ++ pairs.filter (fun kv =>
            !(kv.1 == "redirect_origin") &&
              (!(kv.1 == "redirect_path") || isLogin)),
         hasRO || (isLogin && pairs.any (fun kv => kv.1 == "redirect_origin")),
         hasRP || (isLogin && pairs.any (fun kv => kv.1 == "redirect_path"))) := by
  intro pairs
  induction pairs with
  | nil =>
    intro acc hasRO hasRP
    simp [middlewareQueryFold]
  | cons kv rest ih =>
    intro acc hasRO hasRP
    by_cases h1 : kv.1 = "redirect_origin"
    · have hb1 : (kv.1 == "redirect_origin") = true := by simp [h1]
      have hb2 : (kv.1 == "redirect_path") = false := by simp [h1]
      have hstep : middlewareQueryFold isLogin (kv :: rest) acc hasRO hasRP
          = middlewareQueryFold isLogin rest acc (hasRO || isLogin) hasRP := by
        simp [middlewareQueryFold, hb1]
      rw [hstep, ih]
      simp only [Prod.mk.injEq]
      refine ⟨?_, ?_, ?_⟩
      · rw [List.filter_cons, if_neg (by simp [hb1])]
      · rw [List.any_cons, hb1]
        cases isLogin <;> cases hasRO <;> simp
      · rw [List.any_cons, hb2]
        simp
    · by_cases h2 : kv.1 = "redirect_path"
      · have hb1 : (kv.1 == "redirect_origin") = false := by simp [h2, h1]
        have hb2 : (kv.1 == "redirect_path") = true := by simp [h2]
        cases isLogin with
        | false =>
          have hstep : middlewareQueryFold false (kv :: rest) acc hasRO hasRP
              = middlewareQueryFold false rest acc hasRO hasRP := by
            simp [middlewareQueryFold, hb1, hb2]
          rw [hstep, ih]
          simp only [Prod.mk.injEq]
          refine ⟨?_, by simp, by simp⟩
          rw [List.filter_cons, if_neg (by simp [hb1, hb2])]
        | true =>
          have hstep : middlewareQueryFold true (kv :: rest) acc hasRO hasRP
              = middlewareQueryFold true rest (acc ++ [kv]) hasRO true := by
            simp [middlewareQueryFold, hb1, hb2]
          rw [hstep, ih]
          simp only [Prod.mk.injEq]
          refine ⟨?_, ?_, ?_⟩
          · rw [List.filter_cons, if_pos (by simp [hb1, hb2])]
            simp
          · rw [List.any_cons, hb1]
            simp
          · rw [List.any_cons, hb2]
            cases hasRP <;> simp
      · have hb1 : (kv.1 == "redirect_origin") = false := by simp [h1]
        have hb2 : (kv.1 == "redirect_path") = false := by simp [h2]
        have hstep : middlewareQueryFold isLogin (kv :: rest) acc hasRO hasRP
            = middlewareQueryFold isLogin rest (acc ++ [kv]) hasRO hasRP := by
          simp [middlewareQueryFold, hb1, hb2]
        rw [hstep, ih]
        simp only [Prod.mk.injEq]
        refine ⟨?_, ?_, ?_⟩
        · rw [List.filter_cons, if_pos (by simp [hb1, hb2])]
          simp
        · rw [List.any_cons, hb1]
          simp
        · rw [List.any_cons, hb2]
          simp

/-- The query string `enforce_canonical_auth_origin` attaches to its
redirect, in closed form: incoming `redirect_origin` pairs are always
dropped; incoming `redirect_path` pairs are dropped on non-login paths but
forwarded unchanged on the login path; `redirect_origin=<requesting
origin>` is appended exactly when the path is the login path and the
requesting origin's host is allow-listed; `redirect_path=/` is appended
when the path is the login path, no incoming `redirect_path` was present,
and either a `redirect_origin` was appended or the incoming query carried
a `redirect_origin` parameter. -/
def middlewareRedirectQuery (parse : UrlParser) (st : AppState)
    (path : String) (pairs : List (String × String)) (origin : String) :
    List (String × String) :=
  let isLogin := path_matches path "/login"
  let inject := isLogin &&
    (match origin_host parse origin with
     | some hostv => st.allowedHosts.contains hostv
     | none => false)
  let hasRO := (isLogin && pairs.any (fun kv => kv.1 == "redirect_origin")) || inject
  let hasRP := isLogin && pairs.any (fun kv => kv.1 == "redirect_path")
  pairs.filter (fun kv =>
      !(kv.1 == "redirect_origin") && (!(kv.1 == "redirect_path") || isLogin))
    ++ (if inject then [("redirect_origin", origin)] else [])
    ++ (if isLogin && hasRO && !hasRP then [("redirect_path", "/")] else [])

/-- C9 (amended): on an auth-sensitive path whose resolved origin differs
from the canonical origin, the middleware issues a temporary redirect to
the same path on the canonical origin carrying exactly the
`middlewareRedirectQuery` closed form of the rebuilt query — in which an
incoming `redirect_path` on the login path is forwarded unchanged, not
re-derived, and `redirect_path=/` can be added on the strength of a merely
present (not re-injected) incoming `redirect_origin`. -/
theorem enforce_canonical_redirect_spec (parse : UrlParser) (st : AppState)
    (path : String) (pairs : List (String × String)) (headers : Headers)
    (origin : String)
    (hpath : canonical_auth_path path = true)
    (horigin : request_origin headers
        (request_fallback_scheme parse headers st.rpOrigin) = some origin)
    (hnc : eqIgnoreAsciiCase origin st.rpOrigin = false) :
    enforce_canonical_auth_origin parse st path pairs headers =
      .redirect (st.rpOrigin ++ path)
        (middlewareRedirectQuery parse st path pairs origin) := by
  cases hlog : path_matches path "/login" with
  | false =>
    have hfold := middlewareQueryFold_spec false pairs [] false false
    simp [enforce_canonical_auth_origin, middlewareRedirectQuery, hpath,
      horigin, hnc, hlog, hfold]
  | true =>
    have hfold := middlewareQueryFold_spec true pairs [] false false
    cases hany1 : pairs.any (fun kv => kv.1 == "redirect_origin") <;>
      cases hany2 : pairs.any (fun kv => kv.1 == "redirect_path") <;>
        cases hoh : origin_host parse origin <;>
          simp [enforce_canonical_auth_origin, middlewareRedirectQuery, hpath,
            horigin, hnc, hlog, hfold, hany1, hany2, hoh, List.append_assoc] <;>
          split_ifs <;> simp [List.append_assoc]

/-- Closed instance of the C9 (amended) theorem at the counterexample's
input. -/
theorem enforce_canonical_redirect_spec_witness :
    enforce_canonical_auth_origin parseStub
        ⟨"https://canon.example", ["other.example"], true⟩ "/login"
        [("redirect_path", "/keep")] ⟨none, none, some "other.example"⟩
      = .redirect ("https://canon.example" ++ "/login")
          (middlewareRedirectQuery parseStub
            ⟨"https://canon.example", ["other.example"], true⟩ "/login"
            [("redirect_path", "/keep")] "http://other.example") :=
  enforce_canonical_redirect_spec parseStub
    ⟨"https://canon.example", ["other.example"], true⟩ "/login"
    [("redirect_path", "/keep")] ⟨none, none, some "other.example"⟩
    "http://other.example" (by decide) (by decide) (by decide)

/-- C9 counterexample: the claim says the rebuilt query preserves all
incoming parameters *except* `redirect_origin` and `redirect_path`, which
are re-derived rather than blindly forwarded.  On the login path, with the
allow-listed requesting origin `http://other.example` and incoming query
`redirect_path=/keep`, the middleware in fact forwards the incoming
`redirect_path` pair verbatim: the rebuilt query is
`redirect_path=/keep&redirect_origin=http://other.example`, which contains
the forwarded pair and is neither of the queries the claim's re-derivation
rule would produce (`redirect_origin` alone, or `redirect_origin` plus the
default `redirect_path=/`). -/
theorem middleware_forwards_incoming_redirect_path :
    enforce_canonical_auth_origin parseStub
        ⟨"https://canon.example", ["other.example"], true⟩ "/login"
        [("redirect_path", "/keep")] ⟨none, none, some "other.example"⟩
      = .redirect "https://canon.example/login"
          [("redirect_path", "/keep"),
           ("redirect_origin", "http://other.example")]
    ∧ ¬ (enforce_canonical_auth_origin parseStub
          ⟨"https://canon.example", ["other.example"], true⟩ "/login"
          [("redirect_path", "/keep")] ⟨none, none, some "other.example"⟩
        = .redirect "https://canon.example/login"
            [("redirect_origin", "http://other.example")])
    ∧ ¬ (enforce_canonical_auth_origin parseStub
          ⟨"https://canon.example", ["other.example"], true⟩ "/login"
          [("redirect_path", "/keep")] ⟨none, none, some "other.example"⟩
        = .redirect "https://canon.example/login"
            [("redirect_origin", "http://other.example"),
             ("redirect_path", "/")]) :=
  ⟨by decide, by decide, by decide⟩

end Den
